import Mathlib

/-!
Shallow embedding of the SAMWISE dataset-loading code
(`datasets/mevis.py` and `datasets/__init__.py`).

Dense 2-D mask arrays are modelled as lists of rows of natural numbers,
mirroring the numpy accumulator `mask = np.zeros(img.size[::-1])` of
`MeViSDataset.__getitem__`; the external RLE decoder `coco_mask.decode`,
the image loader, the `FrameSampler` and the augmentation pipeline
`self._transforms` are opaque collaborators and enter the model as
function parameters.
-/

namespace SAMWISE

abbrev Mat := List (List Nat)

/-- The all-zero array `np.zeros((h, w))`. -/
def zerosMat (h w : Nat) : Mat :=
  List.replicate h (List.replicate w 0)

/-- Elementwise numpy addition, as in `mask += coco_mask.decode(frm_anno)`. -/
def matAdd (a b : Mat) : Mat :=
  List.zipWith (fun r s => List.zipWith (fun x y => x + y) r s) a b

/-- The emptiness test `(mask > 0).any()`. -/
def matAnyPos (m : Mat) : Bool :=
  m.any (fun row => row.any (fun v => decide (0 < v)))

/-- Entry of a matrix at row `i`, column `j` (0 outside the array). -/
def entry (m : Mat) (i j : Nat) : Nat :=
  (m.getD i []).getD j 0

/-- The matrix has `h` rows, each of width `w`. -/
def MatShape (m : Mat) (h w : Nat) : Prop :=
  m.length = h ∧ ∀ r ∈ m, r.length = w

instance (m : Mat) (h w : Nat) : Decidable (MatShape m h w) := by
  unfold MatShape
  infer_instance

/-- Per-row nonzero flags, `np.any(img, axis=1)`. -/
def rowFlags (m : Mat) : List Bool :=
  m.map (fun row => row.any (fun v => decide (v ≠ 0)))

/-- The width numpy reads off the array shape (length of the first row). -/
def matWidth (m : Mat) : Nat := (m.headD []).length

/-- Per-column nonzero flags, `np.any(img, axis=0)`. -/
def colFlags (m : Mat) : List Bool :=
  (List.range (matWidth m)).map (fun j => m.any (fun row => decide (row.getD j 0 ≠ 0)))

/-- Indices of the true flags, `np.where(flags)[0]`. -/
def trueIdxs (bs : List Bool) : List Nat :=
  (List.range bs.length).filter (fun i => bs.getD i false)

/-- Static method `MeViSDataset.bounding_box`: returns
`(rmin, rmax, cmin, cmax)`, documented in the source as `y1, y2, x1, x2`. -/
def bounding_box (m : Mat) : Nat × Nat × Nat × Nat :=
  ((trueIdxs (rowFlags m)).headD 0, (trueIdxs (rowFlags m)).getLastD 0,
   (trueIdxs (colFlags m)).headD 0, (trueIdxs (colFlags m)).getLastD 0)

/-- One iteration of the mask-accumulation loop of `__getitem__`:
`frm_anno = self.mask_dict[x][frame_indx];
 if frm_anno is not None: mask += coco_mask.decode(frm_anno)`. -/
def accumStep {α : Type} (maskDict : String → List (Option α)) (decodeFn : α → Mat)
    (frameIdx : Nat) (acc : Mat) (x : String) : Mat :=
  match (maskDict x).getD frameIdx none with
  | none => acc
  | some r => matAdd acc (decodeFn r)

/-- The mask-accumulation loop `for x in anno_id: ...` of `__getitem__`,
starting from `np.zeros(img.size[::-1])`. -/
def accumMask {α : Type} (maskDict : String → List (Option α)) (decodeFn : α → Mat)
    (h w : Nat) (annoIds : List String) (frameIdx : Nat) : Mat :=
  annoIds.foldl (accumStep maskDict decodeFn frameIdx) (zerosMat h w)

/-- Row `i` of the matrix holds a nonzero entry. -/
def RowNZ (m : Mat) (i : Nat) : Prop :=
  ∃ v ∈ m.getD i [], v ≠ 0

/-- Column `j` of the matrix holds a nonzero entry. -/
def ColNZ (m : Mat) (j : Nat) : Prop :=
  ∃ row ∈ m, row.getD j 0 ≠ 0

/-- Contribution of annotation id `x` to pixel `(i, j)` of the
accumulated mask at frame `frameIdx`: 0 for a null per-frame entry, the
decoded pixel otherwise. -/
def pixelContrib {α : Type} (maskDict : String → List (Option α)) (decodeFn : α → Mat)
    (frameIdx i j : Nat) (x : String) : Nat :=
  match (maskDict x).getD frameIdx none with
  | none => 0
  | some r => entry (decodeFn r) i j

/-- A loaded PIL image: only its size `(w, h)` matters to the loader logic. -/
structure Img where
  w : Nat
  h : Nat
  deriving DecidableEq, Inhabited

/-- One catalog entry built by `prepare_metas` (the `meta` dict). -/
structure Meta where
  video : String
  exp : String
  obj_id : List Int
  anno_id : List String
  frames : List String
  frame_id : Nat
  category : Nat
  deriving DecidableEq, Inhabited

/-- The `target` dict assembled by `__getitem__`. Box tuples are
`(x1, y1, x2, y2)`. -/
structure Target where
  frames_idx : List Nat
  labels : List Nat
  boxes : List (Nat × Nat × Nat × Nat)
  masks : List Mat
  valid : List Nat
  caption : String
  orig_size : Nat × Nat
  size : Nat × Nat
  video_id : String
  exp_id : Nat
  deriving DecidableEq, Inhabited

/-- Splitting a character list on whitespace runs, dropping empty pieces:
Python `str.split()` with no separator. -/
def splitWsAux : List Char → List Char → List (List Char)
  | [], acc => if acc = [] then [] else [acc.reverse]
  | c :: cs, acc =>
    if c.isWhitespace then
      (if acc = [] then splitWsAux cs [] else acc.reverse :: splitWsAux cs [])
    else splitWsAux cs (c :: acc)

/-- Python `" ".join(words)` on character lists. -/
def joinSpace : List (List Char) → List Char
  | [] => []
  | [w] => w
  | w :: ws => w ++ ' ' :: joinSpace ws

/-- Caption clean-up `exp = " ".join(exp.lower().split())`. -/
def normalizeCaption (s : String) : String :=
  String.mk (joinSpace (splitWsAux (s.data.map Char.toLower) []))

/-- The state of one `MeViSDataset` instance together with its opaque
collaborators: the mask store `mask_dict`, the RLE decoder, the image
loader, `FrameSampler.sample_global_frames` and `self._transforms`. -/
structure MeViSModel (α : Type) where
  metas : List Meta
  maskDict : String → List (Option α)
  decodeFn : α → Mat
  num_frames : Nat
  loadImg : String → String → Img
  sampler : Nat → Nat → Nat → List Nat
  transform : List Img → Target → List Img × Target

/-- Per-frame box and validity flag: the branch on `(mask > 0).any()`
producing `box = [x1, y1, x2, y2], valid 1` or `box = [0,0,0,0], valid 0`. -/
def boxValid (m : Mat) : (Nat × Nat × Nat × Nat) × Nat :=
  if matAnyPos m then
    (((bounding_box m).2.2.1, (bounding_box m).1, (bounding_box m).2.2.2, (bounding_box m).2.1), 1)
  else ((0, 0, 0, 0), 0)

/-- The in-place clamps `boxes[:, 0::2].clamp_(min=0, max=w)` and
`boxes[:, 1::2].clamp_(min=0, max=h)` on one box (coordinates are
naturals, so the lower clamp at 0 is the identity). -/
def clampBox (w h : Nat) (b : Nat × Nat × Nat × Nat) : Nat × Nat × Nat × Nat :=
  (min b.1 w, min b.2.1 h, min b.2.2.1 w, min b.2.2.2 h)

/-- Iteration `j` of the frame loop of `__getitem__`: the loaded image,
the sampled frame index and the accumulated mask. -/
def frameData {α : Type} (D : MeViSModel α) (meta : Meta) (sample_indx : List Nat)
    (j : Nat) : Img × Nat × Mat :=
  let frame_indx := sample_indx.getD j 0
  let frame_name := meta.frames.getD frame_indx ""
  let img := D.loadImg meta.video frame_name
  (img, frame_indx, accumMask D.maskDict D.decodeFn img.h img.w meta.anno_id frame_indx)

/-- Catalog lookup `meta = self.metas[idx]`. -/
def assembleMeta {α : Type} (D : MeViSModel α) (idx : Nat) : Meta :=
  D.metas.getD idx default

/-- Frame sampling
`sample_indx = FrameSampler.sample_global_frames(frame_id, vid_len, self.num_frames)`. -/
def assembleSample {α : Type} (D : MeViSModel α) (idx : Nat) : List Nat :=
  D.sampler (assembleMeta D idx).frame_id (assembleMeta D idx).frames.length D.num_frames

/-- The `for j in range(self.num_frames)` loop, one `frameData` per j. -/
def assembleFD {α : Type} (D : MeViSModel α) (idx : Nat) : List (Img × Nat × Mat) :=
  (List.range D.num_frames).map (frameData D (assembleMeta D idx) (assembleSample D idx))

/-- The `imgs` list appended by the loop. -/
def assembleImgs {α : Type} (D : MeViSModel α) (idx : Nat) : List Img :=
  (assembleFD D idx).map (fun t => t.1)

/-- The `masks` list appended by the loop. -/
def assembleMasks {α : Type} (D : MeViSModel α) (idx : Nat) : List Mat :=
  (assembleFD D idx).map (fun t => t.2.2)

/-- The image the loop variable `img` holds after the loop, whose size
`w, h = img.size` the clamping uses. -/
def assembleLast {α : Type} (D : MeViSModel α) (idx : Nat) : Img :=
  (assembleImgs D idx).getLastD default

/-- One pass of the body of `__getitem__` before `self._transforms`:
meta lookup, caption clean-up, frame sampling, the per-frame loop filling
`imgs, labels, boxes, masks, valid`, box clamping against the size of the
image left in `img` after the loop, and assembly of the `target` dict. -/
def assemble {α : Type} (D : MeViSModel α) (idx : Nat) : List Img × Target :=
  (assembleImgs D idx,
   { frames_idx := assembleSample D idx,
     labels := (List.range D.num_frames).map (fun _ => 0),
     boxes := (assembleMasks D idx).map
       (fun m => clampBox (assembleLast D idx).w (assembleLast D idx).h (boxValid m).1),
     masks := assembleMasks D idx,
     valid := (assembleMasks D idx).map (fun m => (boxValid m).2),
     caption := normalizeCaption (assembleMeta D idx).exp,
     orig_size := ((assembleLast D idx).h, (assembleLast D idx).w),
     size := ((assembleLast D idx).h, (assembleLast D idx).w),
     video_id := (assembleMeta D idx).video,
     exp_id := idx })

/-- One full attempt of the body of `__getitem__`, i.e. `assemble`
followed by `imgs, target = self._transforms(imgs, target)`. -/
def attemptOut {α : Type} (D : MeViSModel α) (idx : Nat) : List Img × Target :=
  D.transform (assemble D idx).1 (assemble D idx).2

/-- The retry condition `torch.any(target[...] == 1)` on the valid flags. -/
def validAny (t : Target) : Bool :=
  t.valid.any (fun v => v == 1)

/-- The `while not instance_check` retry loop of `__getitem__`. The
pseudo-random indices drawn by `idx = random.randint(0, len(self) - 1)`
are supplied as the stream `draws`; the loop returns `none` only when the
stream is exhausted while still unsatisfied (the real loop is unbounded
and simply keeps drawing). -/
def getitemLoop {α : Type} (D : MeViSModel α) : List Nat → Nat → Option (List Img × Target)
  | [], idx =>
      if validAny (attemptOut D idx).2 then some (attemptOut D idx) else none
  | d :: rest, idx =>
      if validAny (attemptOut D idx).2 then some (attemptOut D idx)
      else getitemLoop D rest d

/-- One expression record of the annotation manifest
(`{"exp": ..., "obj_id": [...], "anno_id": [...]}`). -/
structure ExpDict where
  exp : String
  obj_id : List Int
  anno_id : List String
  deriving DecidableEq, Inhabited

/-- One video record of the manifest: frame names and expressions keyed
by expression id. -/
structure VidData where
  frames : List String
  expressions : List (String × ExpDict)
  deriving DecidableEq, Inhabited

/-- Concatenation of a list of lists (the nested `for` loops of
`prepare_metas` appending into `self.metas`). -/
def concatLists {β : Type} : List (List β) → List β
  | [] => []
  | xs :: xss => xs ++ concatLists xss

/-- Python `range(0, n, step)`. -/
def rangeStep (n step : Nat) : List Nat :=
  (List.range ((n + step - 1) / step)).map (fun k => k * step)

/-- Lexicographic comparison of code-point lists, the order Python's
`sorted` uses on strings. -/
def charListLe : List Char → List Char → Bool
  | [], _ => true
  | _ :: _, [] => false
  | a :: as, b :: bs =>
    if a.toNat < b.toNat then true
    else if b.toNat < a.toNat then false
    else charListLe as bs

/-- Lexicographic comparison of two strings by code points. -/
def strLe (a b : String) : Bool := charListLe a.data b.data

/-- Lexicographic sort `sorted(vid_data['frames'])`. -/
def sortStrings (l : List String) : List String :=
  List.insertionSort (fun a b => strLe a b = true) l

/-- `MeViSDataset.prepare_metas`: one meta per
(video, expression, anchor in `range(0, vid_len, num_frames)`). -/
def prepare_metas (num_frames : Nat) (videos : List (String × VidData)) : List Meta :=
  concatLists (videos.map (fun v =>
    concatLists (v.2.expressions.map (fun e =>
      (rangeStep (sortStrings v.2.frames).length num_frames).map (fun frame_id =>
        { video := v.1, exp := e.2.exp, obj_id := e.2.obj_id, anno_id := e.2.anno_id,
          frames := sortStrings v.2.frames, frame_id := frame_id, category := 0 })))))

/-- `build_dataset` of `datasets/__init__.py`: pure dispatch on the
dataset string, the four imported per-dataset builders being opaque
parameters; any other string raises `ValueError(f'dataset ... not supported')`,
modelled as `Except.error`. -/
def build_dataset {γ δ : Type} (bmevis bytvos bdavis : String → γ → δ)
    (brefexp : String → String → γ → δ)
    (dataset_file image_set : String) (args : γ) : Except String δ :=
  if dataset_file = "mevis" then Except.ok (bmevis image_set args)
  else if dataset_file = "ytvos" then Except.ok (bytvos image_set args)
  else if dataset_file = "davis" then Except.ok (bdavis image_set args)
  else if dataset_file = "refcoco" ∨ dataset_file = "refcoco+" ∨ dataset_file = "refcocog" then
    Except.ok (brefexp dataset_file image_set args)
  else Except.error ("dataset " ++ dataset_file ++ " not supported")

/-! Concrete instances used to exercise the model on closed inputs. -/

/-- A two-task dataset over 1x1 images: task 0 refers to annotation `"a"`,
whose only per-frame entry is `null`, task 1 to annotation `"b"`, whose
entry decodes to the mask `[[1]]`. The transform is the identity. -/
def Dex : MeViSModel Nat where
  metas :=
    [{ video := "v0", exp := "A  Person", obj_id := [1], anno_id := ["a"],
       frames := ["f0"], frame_id := 0, category := 0 },
     { video := "v1", exp := "b", obj_id := [2], anno_id := ["b"],
       frames := ["g0"], frame_id := 0, category := 0 }]
  maskDict := fun x => if x = "b" then [some 1] else [none]
  decodeFn := fun _ => [[1]]
  num_frames := 1
  loadImg := fun _ _ => { w := 1, h := 1 }
  sampler := fun _ _ _ => [0]
  transform := fun is t => (is, t)

/-- A one-task dataset whose single expression carries two annotation ids
that both decode, at the sampled frame, to the binary mask `[[1]]` on a
1x1 image: the decoded masks overlap at pixel (0, 0). -/
def Dov : MeViSModel Nat where
  metas :=
    [{ video := "v0", exp := "two things", obj_id := [1, 2], anno_id := ["a", "b"],
       frames := ["f0"], frame_id := 0, category := 0 }]
  maskDict := fun _ => [some 1]
  decodeFn := fun _ => [[1]]
  num_frames := 1
  loadImg := fun _ _ => { w := 1, h := 1 }
  sampler := fun _ _ _ => [0]
  transform := fun is t => (is, t)

/-- A manifest video with ten frames and one expression, the worked
example of the spec (clip length 5 should give anchors 0 and 5). -/
def vd10 : VidData :=
  { frames := ["f0", "f1", "f2", "f3", "f4", "f5", "f6", "f7", "f8", "f9"],
    expressions := [("0", { exp := "a person", obj_id := [1], anno_id := ["1"] })] }

/-- A manifest video whose single expression has one object id but two
annotation ids (mismatched lengths). -/
def mism : VidData :=
  { frames := ["f"],
    expressions := [("0", { exp := "e", obj_id := [1], anno_id := ["1", "2"] })] }

/-! Helper lemmas about the matrix model. -/

theorem zipWith_add_replicate_zero (r : List Nat) :
    List.zipWith (fun x y => x + y) (List.replicate r.length 0) r = r := by
  induction r with
  | nil => rfl
  | cons a as ih =>
      simp only [List.length_cons, List.replicate_succ, List.zipWith_cons_cons, Nat.zero_add, ih]

theorem matAdd_zeros_left (m : Mat) (w : Nat) (hw : ∀ r ∈ m, r.length = w) :
    matAdd (zerosMat m.length w) m = m := by
  induction m with
  | nil => rfl
  | cons r rs ih =>
      have hr : r.length = w := hw r (by simp)
      have h1 : List.zipWith (fun x y => x + y) (List.replicate w 0) r = r := by
        rw [← hr]; exact zipWith_add_replicate_zero r
      have h2 := ih (fun s hs => hw s (by simp [hs]))
      simp only [matAdd, zerosMat, List.length_cons, List.replicate_succ,
        List.zipWith_cons_cons, h1] at *
      simp [h2]

theorem zerosMat_shape (h w : Nat) : MatShape (zerosMat h w) h w := by
  refine ⟨by simp [zerosMat], ?_⟩
  intro r hr
  rcases (List.mem_replicate.1 hr) with ⟨_, rfl⟩
  simp

theorem entry_zerosMat (h w i j : Nat) : entry (zerosMat h w) i j = 0 := by
  unfold entry zerosMat
  by_cases hi : i < h
  · have hi' : i < (List.replicate h (List.replicate w 0)).length := by simpa
    rw [List.getD_eq_getElem _ _ hi', List.getElem_replicate]
    by_cases hj : j < w
    · have hj' : j < (List.replicate w (0 : Nat)).length := by simpa
      rw [List.getD_eq_getElem _ _ hj', List.getElem_replicate]
    · exact List.getD_eq_default _ _ (by simpa using Nat.le_of_not_lt hj)
  · rw [List.getD_eq_default (List.replicate h (List.replicate w 0)) []
      (by simpa using Nat.le_of_not_lt hi)]
    simp

theorem matAdd_shape {a b : Mat} {h w : Nat} (ha : MatShape a h w) (hb : MatShape b h w) :
    MatShape (matAdd a b) h w := by
  refine ⟨by simp [matAdd, List.length_zipWith, ha.1, hb.1], ?_⟩
  intro r hr
  rw [List.mem_iff_getElem] at hr
  obtain ⟨i, hi, rfl⟩ := hr
  have hia : i < a.length := by
    simp only [matAdd, List.length_zipWith] at hi; omega
  have hib : i < b.length := by
    simp only [matAdd, List.length_zipWith] at hi; omega
  have : (matAdd a b)[i] = List.zipWith (fun x y => x + y) a[i] b[i] := by
    simp [matAdd, List.getElem_zipWith]
  rw [this, List.length_zipWith, ha.2 a[i] (List.getElem_mem hia),
    hb.2 b[i] (List.getElem_mem hib)]
  simp

theorem entry_matAdd {a b : Mat} {h w : Nat} (ha : MatShape a h w) (hb : MatShape b h w)
    {i j : Nat} (hi : i < h) (hj : j < w) :
    entry (matAdd a b) i j = entry a i j + entry b i j := by
  have hia : i < a.length := ha.1 ▸ hi
  have hib : i < b.length := hb.1 ▸ hi
  have hiab : i < (matAdd a b).length := by
    simp only [matAdd, List.length_zipWith]; omega
  unfold entry
  rw [List.getD_eq_getElem _ _ hiab, List.getD_eq_getElem _ _ hia, List.getD_eq_getElem _ _ hib]
  have habi : (matAdd a b)[i] = List.zipWith (fun x y => x + y) a[i] b[i] := by
    simp [matAdd, List.getElem_zipWith]
  have hja : j < a[i].length := by rw [ha.2 a[i] (List.getElem_mem hia)]; exact hj
  have hjb : j < b[i].length := by rw [hb.2 b[i] (List.getElem_mem hib)]; exact hj
  have hjz : j < (List.zipWith (fun x y => x + y) a[i] b[i]).length := by
    rw [List.length_zipWith]; omega
  rw [habi, List.getD_eq_getElem _ _ hjz, List.getD_eq_getElem _ _ hja,
    List.getD_eq_getElem _ _ hjb, List.getElem_zipWith]

/-! Helper lemmas about mask accumulation. -/

theorem accumStep_none {α : Type} {maskDict : String → List (Option α)} {decodeFn : α → Mat}
    {frameIdx : Nat} {x : String} (hx : (maskDict x).getD frameIdx none = none) (acc : Mat) :
    accumStep maskDict decodeFn frameIdx acc x = acc := by
  unfold accumStep
  rw [hx]

theorem accumStep_some {α : Type} {maskDict : String → List (Option α)} {decodeFn : α → Mat}
    {frameIdx : Nat} {x : String} {r : α} (hx : (maskDict x).getD frameIdx none = some r)
    (acc : Mat) :
    accumStep maskDict decodeFn frameIdx acc x = matAdd acc (decodeFn r) := by
  unfold accumStep
  rw [hx]

theorem pixelContrib_none {α : Type} {maskDict : String → List (Option α)} {decodeFn : α → Mat}
    {frameIdx i j : Nat} {x : String} (hx : (maskDict x).getD frameIdx none = none) :
    pixelContrib maskDict decodeFn frameIdx i j x = 0 := by
  unfold pixelContrib
  rw [hx]

theorem pixelContrib_some {α : Type} {maskDict : String → List (Option α)} {decodeFn : α → Mat}
    {frameIdx i j : Nat} {x : String} {r : α} (hx : (maskDict x).getD frameIdx none = some r) :
    pixelContrib maskDict decodeFn frameIdx i j x = entry (decodeFn r) i j := by
  unfold pixelContrib
  rw [hx]

theorem accumFold_all_null {α : Type} {maskDict : String → List (Option α)}
    {decodeFn : α → Mat} {frameIdx : Nat} :
    ∀ (ids : List String) (acc : Mat),
      (∀ x ∈ ids, (maskDict x).getD frameIdx none = none) →
      List.foldl (accumStep maskDict decodeFn frameIdx) acc ids = acc := by
  intro ids
  induction ids with
  | nil => intro acc _; rfl
  | cons x xs ih =>
      intro acc hnull
      rw [List.foldl_cons, accumStep_none (hnull x (by simp)) acc]
      exact ih acc (fun y hy => hnull y (by simp [hy]))

theorem accumFold_shape_entry {α : Type} {maskDict : String → List (Option α)}
    {decodeFn : α → Mat} {frameIdx : Nat} {h w i j : Nat} (hi : i < h) (hj : j < w) :
    ∀ (ids : List String) (acc : Mat), MatShape acc h w →
      (∀ x ∈ ids, ∀ r, (maskDict x).getD frameIdx none = some r →
        MatShape (decodeFn r) h w) →
      MatShape (List.foldl (accumStep maskDict decodeFn frameIdx) acc ids) h w ∧
      entry (List.foldl (accumStep maskDict decodeFn frameIdx) acc ids) i j
        = entry acc i j + (ids.map (pixelContrib maskDict decodeFn frameIdx i j)).sum := by
  intro ids
  induction ids with
  | nil => intro acc hacc _; exact ⟨hacc, by simp⟩
  | cons x xs ih =>
      intro acc hacc hdec
      cases hx : (maskDict x).getD frameIdx none with
      | none =>
          have hrec := ih acc hacc (fun y hy => hdec y (by simp [hy]))
          rw [List.foldl_cons, accumStep_none hx acc]
          refine ⟨hrec.1, ?_⟩
          rw [hrec.2]
          simp [pixelContrib_none hx]
      | some r =>
          have hdr : MatShape (decodeFn r) h w := hdec x (by simp) r hx
          have hacc' : MatShape (matAdd acc (decodeFn r)) h w := matAdd_shape hacc hdr
          have hrec := ih (matAdd acc (decodeFn r)) hacc' (fun y hy => hdec y (by simp [hy]))
          rw [List.foldl_cons, accumStep_some hx acc]
          refine ⟨hrec.1, ?_⟩
          rw [hrec.2, entry_matAdd hacc hdr hi hj]
          simp [pixelContrib_some hx, Nat.add_assoc]

theorem accumMask_entry_sum {α : Type} {maskDict : String → List (Option α)}
    {decodeFn : α → Mat} {frameIdx : Nat} {h w i j : Nat} (hi : i < h) (hj : j < w)
    (ids : List String)
    (hdec : ∀ x ∈ ids, ∀ r, (maskDict x).getD frameIdx none = some r →
      MatShape (decodeFn r) h w) :
    entry (accumMask maskDict decodeFn h w ids frameIdx) i j
      = (ids.map (pixelContrib maskDict decodeFn frameIdx i j)).sum := by
  have := (accumFold_shape_entry hi hj ids (zerosMat h w) (zerosMat_shape h w) hdec).2
  rw [accumMask, this, entry_zerosMat]
  simp

theorem sum_le_one_of_single_nonzero :
    ∀ l : List Nat, (∀ v ∈ l, v ≤ 1) → (l.filter (fun v => v ≠ 0)).length ≤ 1 → l.sum ≤ 1 := by
  intro l
  induction l with
  | nil => intro _ _; simp
  | cons a as ih =>
      intro hle hcount
      by_cases ha : a = 0
      · subst ha
        have hcount' : (as.filter (fun v => v ≠ 0)).length ≤ 1 := by
          simpa [List.filter_cons] using hcount
        have := ih (fun v hv => hle v (by simp [hv])) hcount'
        simpa using this
      · have ha1 : a ≤ 1 := hle a (by simp)
        have hcons : (a :: as).filter (fun v => v ≠ 0) = a :: as.filter (fun v => v ≠ 0) := by
          simp [List.filter_cons, ha]
        rw [hcons] at hcount
        have htail : (as.filter (fun v => v ≠ 0)).length = 0 := by
          simp only [List.length_cons] at hcount
          omega
        have hfe : as.filter (fun v => v ≠ 0) = [] := List.length_eq_zero.1 htail
        have hall : ∀ v ∈ as, v = 0 := by
          intro v hv
          by_contra hvne
          have hmem : v ∈ as.filter (fun v => v ≠ 0) :=
            List.mem_filter.2 ⟨hv, by simpa using hvne⟩
          rw [hfe] at hmem
          exact absurd hmem (List.not_mem_nil v)
        have hsum : as.sum = 0 := List.sum_eq_zero hall
        simpa [List.sum_cons, hsum] using ha1

/-! Helper lemmas about the bounding-box computation. -/

theorem mem_trueIdxs {bs : List Bool} {i : Nat} :
    i ∈ trueIdxs bs ↔ i < bs.length ∧ bs.getD i false = true := by
  simp [trueIdxs, List.mem_filter, List.mem_range]

theorem trueIdxs_pairwise (bs : List Bool) : (trueIdxs bs).Pairwise (· < ·) :=
  (List.pairwise_lt_range bs.length).filter _

theorem headD_le_of_pairwise {l : List Nat} (hp : l.Pairwise (· < ·)) {a : Nat} (ha : a ∈ l) :
    l.headD 0 ≤ a := by
  cases l with
  | nil => cases ha
  | cons x xs =>
      rcases List.mem_cons.1 ha with rfl | hmem
      · exact Nat.le_refl _
      · exact Nat.le_of_lt ((List.pairwise_cons.1 hp).1 a hmem)

theorem le_getLast?_of_pairwise :
    ∀ {l : List Nat}, l.Pairwise (· < ·) → ∀ {a : Nat}, a ∈ l → ∀ {b : Nat},
      l.getLast? = some b → a ≤ b := by
  intro l
  induction l with
  | nil => intro _ a ha; cases ha
  | cons x xs ih =>
      intro hp a ha b hb
      cases xs with
      | nil =>
          simp at hb ha
          omega
      | cons y ys =>
          rw [List.getLast?_cons_cons] at hb
          have hptail : (y :: ys).Pairwise (· < ·) := (List.pairwise_cons.1 hp).2
          rcases List.mem_cons.1 ha with rfl | hmem
          · have hy : y ≤ b := ih hptail (by simp) hb
            have hxy : a < y := (List.pairwise_cons.1 hp).1 y (by simp)
            omega
          · exact ih hptail hmem hb

theorem le_getLastD_of_pairwise {l : List Nat} (hp : l.Pairwise (· < ·)) {a : Nat}
    (ha : a ∈ l) : a ≤ l.getLastD 0 := by
  have hne : l ≠ [] := List.ne_nil_of_mem ha
  rw [List.getLastD_eq_getLast? 0 l, List.getLast?_eq_getLast l hne]
  exact le_getLast?_of_pairwise hp ha (List.getLast?_eq_getLast l hne)

theorem headD_mem {l : List Nat} (hne : l ≠ []) : l.headD 0 ∈ l := by
  cases l with
  | nil => exact absurd rfl hne
  | cons x xs => simp

theorem getLastD_mem {l : List Nat} (hne : l ≠ []) : l.getLastD 0 ∈ l := by
  rw [List.getLastD_eq_getLast? 0 l, List.getLast?_eq_getLast l hne]
  exact List.getLast_mem hne

theorem rowFlags_length (m : Mat) : (rowFlags m).length = m.length := by
  simp [rowFlags]

theorem rowFlags_getD {m : Mat} {i : Nat} :
    (rowFlags m).getD i false = true ↔ i < m.length ∧ RowNZ m i := by
  by_cases hi : i < m.length
  · have hi' : i < (rowFlags m).length := by rwa [rowFlags_length]
    rw [List.getD_eq_getElem _ _ hi']
    have : (rowFlags m)[i] = (m[i]).any (fun v => decide (v ≠ 0)) := by
      simp [rowFlags]
    rw [this]
    unfold RowNZ
    rw [List.getD_eq_getElem _ _ hi]
    simp [List.any_eq_true, hi]
  · rw [List.getD_eq_default _ _ (by rw [rowFlags_length]; omega)]
    simp only [Bool.false_eq_true, false_iff]
    intro hcon
    exact hi hcon.1

theorem colFlags_length (m : Mat) : (colFlags m).length = matWidth m := by
  simp [colFlags]

theorem colFlags_getD {m : Mat} {j : Nat} :
    (colFlags m).getD j false = true ↔ j < matWidth m ∧ ColNZ m j := by
  by_cases hj : j < matWidth m
  · have hj' : j < (colFlags m).length := by rwa [colFlags_length]
    rw [List.getD_eq_getElem _ _ hj']
    have : (colFlags m)[j] = m.any (fun row => decide (row.getD j 0 ≠ 0)) := by
      simp [colFlags]
    rw [this]
    unfold ColNZ
    simp [List.any_eq_true, hj]
  · rw [List.getD_eq_default _ _ (by rw [colFlags_length]; omega)]
    simp only [Bool.false_eq_true, false_iff]
    intro hcon
    exact hj hcon.1

theorem matAnyPos_iff {m : Mat} : matAnyPos m = true ↔ ∃ row ∈ m, ∃ v ∈ row, 0 < v := by
  simp [matAnyPos, List.any_eq_true]

theorem matWidth_of_shape {m : Mat} {h w : Nat} (hs : MatShape m h w) (hne : m ≠ []) :
    matWidth m = w := by
  cases m with
  | nil => exact absurd rfl hne
  | cons r rs => exact hs.2 r (by simp)

theorem RowNZ_lt_length {m : Mat} {i : Nat} (hr : RowNZ m i) : i < m.length := by
  by_contra hcon
  obtain ⟨v, hv, _⟩ := hr
  rw [List.getD_eq_default _ _ (by omega)] at hv
  exact absurd hv (List.not_mem_nil v)

theorem ColNZ_lt_width {m : Mat} {h w j : Nat} (hs : MatShape m h w) (hc : ColNZ m j) :
    j < w := by
  obtain ⟨row, hrow, hne⟩ := hc
  by_contra hcon
  rw [List.getD_eq_default _ _ (by rw [hs.2 row hrow]; omega)] at hne
  exact hne rfl

theorem bounding_box_spec {m : Mat} {h w : Nat} (hs : MatShape m h w)
    (hp : matAnyPos m = true) :
    ∃ y1 y2 x1 x2, bounding_box m = (y1, y2, x1, x2) ∧
      RowNZ m y1 ∧ RowNZ m y2 ∧ ColNZ m x1 ∧ ColNZ m x2 ∧
      (∀ i, RowNZ m i → y1 ≤ i ∧ i ≤ y2) ∧
      (∀ j, ColNZ m j → x1 ≤ j ∧ j ≤ x2) ∧
      y1 < h ∧ y2 < h ∧ x1 < w ∧ x2 < w := by
  obtain ⟨row, hrow, v, hv, hpos⟩ := matAnyPos_iff.1 hp
  have hne : m ≠ [] := List.ne_nil_of_mem hrow
  have hwid : matWidth m = w := matWidth_of_shape hs hne
  obtain ⟨i0, hi0, hrowEq⟩ := List.mem_iff_getElem.1 hrow
  have hRow0 : RowNZ m i0 :=
    ⟨v, by rw [List.getD_eq_getElem _ _ hi0, hrowEq]; exact hv, by omega⟩
  obtain ⟨j0, hj0, hvEq⟩ := List.mem_iff_getElem.1 hv
  have hCol0 : ColNZ m j0 :=
    ⟨row, hrow, by rw [List.getD_eq_getElem _ _ hj0, hvEq]; omega⟩
  have hj0w : j0 < w := by rw [← hs.2 row hrow]; exact hj0
  have hmemR : i0 ∈ trueIdxs (rowFlags m) :=
    mem_trueIdxs.2 ⟨by rw [rowFlags_length]; exact hi0, rowFlags_getD.2 ⟨hi0, hRow0⟩⟩
  have hmemC : j0 ∈ trueIdxs (colFlags m) :=
    mem_trueIdxs.2 ⟨by rw [colFlags_length, hwid]; exact hj0w,
      colFlags_getD.2 ⟨by rw [hwid]; exact hj0w, hCol0⟩⟩
  have hRne : trueIdxs (rowFlags m) ≠ [] := List.ne_nil_of_mem hmemR
  have hCne : trueIdxs (colFlags m) ≠ [] := List.ne_nil_of_mem hmemC
  have hR1 := mem_trueIdxs.1 (headD_mem hRne)
  have hR2 := mem_trueIdxs.1 (getLastD_mem hRne)
  have hC1 := mem_trueIdxs.1 (headD_mem hCne)
  have hC2 := mem_trueIdxs.1 (getLastD_mem hCne)
  refine ⟨_, _, _, _, rfl, (rowFlags_getD.1 hR1.2).2, (rowFlags_getD.1 hR2.2).2,
    (colFlags_getD.1 hC1.2).2, (colFlags_getD.1 hC2.2).2, ?_, ?_, ?_, ?_, ?_, ?_⟩
  · intro i hri
    have hilt : i < m.length := RowNZ_lt_length hri
    have hmem : i ∈ trueIdxs (rowFlags m) :=
      mem_trueIdxs.2 ⟨by rw [rowFlags_length]; exact hilt, rowFlags_getD.2 ⟨hilt, hri⟩⟩
    exact ⟨headD_le_of_pairwise (trueIdxs_pairwise _) hmem,
      le_getLastD_of_pairwise (trueIdxs_pairwise _) hmem⟩
  · intro j hcj
    have hjlt : j < w := ColNZ_lt_width hs hcj
    have hmem : j ∈ trueIdxs (colFlags m) :=
      mem_trueIdxs.2 ⟨by rw [colFlags_length, hwid]; exact hjlt,
        colFlags_getD.2 ⟨by rw [hwid]; exact hjlt, hcj⟩⟩
    exact ⟨headD_le_of_pairwise (trueIdxs_pairwise _) hmem,
      le_getLastD_of_pairwise (trueIdxs_pairwise _) hmem⟩
  · rw [← hs.1, ← rowFlags_length m]; exact hR1.1
  · rw [← hs.1, ← rowFlags_length m]; exact hR2.1
  · rw [← hwid, ← colFlags_length m]; exact hC1.1
  · rw [← hwid, ← colFlags_length m]; exact hC2.1

theorem boxValid_snd_pos {m : Mat} (hp : matAnyPos m = true) : (boxValid m).2 = 1 := by
  unfold boxValid
  rw [if_pos hp]

theorem boxValid_fst_pos {m : Mat} (hp : matAnyPos m = true) :
    (boxValid m).1 = ((bounding_box m).2.2.1, (bounding_box m).1,
      (bounding_box m).2.2.2, (bounding_box m).2.1) := by
  unfold boxValid
  rw [if_pos hp]

theorem boxValid_neg {m : Mat} (hp : matAnyPos m = false) :
    boxValid m = ((0, 0, 0, 0), 0) := by
  unfold boxValid
  rw [if_neg (by simp [hp])]

/-! Helper lemmas about the assembled target. -/

theorem getD_map_of_lt {β γ : Type} (l : List β) (f : β → γ) {j : Nat} (hj : j < l.length)
    (d : γ) (d' : β) : (l.map f).getD j d = f (l.getD j d') := by
  have hj' : j < (l.map f).length := by simpa
  rw [List.getD_eq_getElem _ _ hj', List.getD_eq_getElem _ _ hj, List.getElem_map]

theorem assembleFD_length {α : Type} (D : MeViSModel α) (idx : Nat) :
    (assembleFD D idx).length = D.num_frames := by
  simp [assembleFD]

theorem assembleMasks_length {α : Type} (D : MeViSModel α) (idx : Nat) :
    (assembleMasks D idx).length = D.num_frames := by
  simp [assembleMasks, assembleFD_length]

theorem assembleMasks_getD {α : Type} (D : MeViSModel α) (idx : Nat) {j : Nat}
    (hj : j < D.num_frames) :
    (assembleMasks D idx).getD j []
      = (frameData D (assembleMeta D idx) (assembleSample D idx) j).2.2 := by
  unfold assembleMasks
  rw [getD_map_of_lt _ _ (by rw [assembleFD_length]; exact hj) [] default]
  unfold assembleFD
  rw [getD_map_of_lt _ _ (by simpa using hj) default 0]
  have : (List.range D.num_frames).getD j 0 = j := by
    rw [List.getD_eq_getElem _ _ (by simpa using hj), List.getElem_range]
  rw [this]

theorem assemble_valid_getD {α : Type} (D : MeViSModel α) (idx : Nat) {j : Nat}
    (hj : j < D.num_frames) :
    (assemble D idx).2.valid.getD j 0 = (boxValid ((assemble D idx).2.masks.getD j [])).2 := by
  show ((assembleMasks D idx).map (fun m => (boxValid m).2)).getD j 0
    = (boxValid ((assembleMasks D idx).getD j [])).2
  rw [getD_map_of_lt _ _ (by rw [assembleMasks_length]; exact hj) 0 []]

theorem assemble_boxes_getD {α : Type} (D : MeViSModel α) (idx : Nat) {j : Nat}
    (hj : j < D.num_frames) :
    (assemble D idx).2.boxes.getD j (0, 0, 0, 0)
      = clampBox (assembleLast D idx).w (assembleLast D idx).h
          (boxValid ((assemble D idx).2.masks.getD j [])).1 := by
  show ((assembleMasks D idx).map
      (fun m => clampBox (assembleLast D idx).w (assembleLast D idx).h (boxValid m).1)).getD j
      (0, 0, 0, 0)
    = clampBox (assembleLast D idx).w (assembleLast D idx).h
        (boxValid ((assembleMasks D idx).getD j [])).1
  rw [getD_map_of_lt _ _ (by rw [assembleMasks_length]; exact hj) (0, 0, 0, 0) []]

/-! Helper lemmas about the retry loop. -/

theorem validAny_exists {t : Target} (hv : validAny t = true) :
    ∃ i, i < t.valid.length ∧ t.valid.getD i 0 = 1 := by
  obtain ⟨v, hvmem, hbeq⟩ := List.any_eq_true.1 hv
  have hv1 : v = 1 := by simpa using hbeq
  obtain ⟨i, hi, hEq⟩ := List.mem_iff_getElem.1 hvmem
  exact ⟨i, hi, by rw [List.getD_eq_getElem _ _ hi, hEq, hv1]⟩

theorem getitemLoop_some_attempt {α : Type} (D : MeViSModel α) :
    ∀ (draws : List Nat) (idx : Nat) (r : List Img × Target),
      getitemLoop D draws idx = some r →
      ∃ i, (i = idx ∨ i ∈ draws) ∧ r = attemptOut D i ∧
        validAny (attemptOut D i).2 = true ∧
        (validAny (attemptOut D idx).2 = true → i = idx) := by
  intro draws
  induction draws with
  | nil =>
      intro idx r hr
      by_cases hv : validAny (attemptOut D idx).2 = true
      · rw [getitemLoop, if_pos hv] at hr
        exact ⟨idx, Or.inl rfl, (Option.some_inj.1 hr).symm, hv, fun _ => rfl⟩
      · rw [getitemLoop, if_neg hv] at hr
        cases hr
  | cons d rest ih =>
      intro idx r hr
      by_cases hv : validAny (attemptOut D idx).2 = true
      · rw [getitemLoop, if_pos hv] at hr
        exact ⟨idx, Or.inl rfl, (Option.some_inj.1 hr).symm, hv, fun _ => rfl⟩
      · rw [getitemLoop, if_neg hv] at hr
        obtain ⟨i, hior, hreq, hival, _⟩ := ih d r hr
        refine ⟨i, Or.inr ?_, hreq, hival, fun hcon => absurd hcon hv⟩
        rcases hior with rfl | hmem
        · simp
        · simp [hmem]

theorem assemble_exp_id {α : Type} (D : MeViSModel α) (idx : Nat) :
    (assemble D idx).2.exp_id = idx := rfl

theorem assemble_video_id {α : Type} (D : MeViSModel α) (idx : Nat) :
    (assemble D idx).2.video_id = (D.metas.getD idx default).video := rfl

theorem assemble_caption {α : Type} (D : MeViSModel α) (idx : Nat) :
    (assemble D idx).2.caption = normalizeCaption (D.metas.getD idx default).exp := rfl

/-! Helper lemmas about the catalog construction. -/

theorem mem_concatLists {β : Type} {x : β} :
    ∀ {L : List (List β)}, x ∈ concatLists L ↔ ∃ l ∈ L, x ∈ l := by
  intro L
  induction L with
  | nil => simp [concatLists]
  | cons xs xss ih => simp [concatLists, List.mem_append, ih]

theorem charListLe_refl : ∀ as, charListLe as as = true := by
  intro as
  induction as with
  | nil => rfl
  | cons a as ih => simp [charListLe, ih]

theorem charListLe_total : ∀ as bs, charListLe as bs = true ∨ charListLe bs as = true := by
  intro as
  induction as with
  | nil => intro bs; exact Or.inl rfl
  | cons a as ih =>
      intro bs
      cases bs with
      | nil => exact Or.inr rfl
      | cons b bs =>
          rcases Nat.lt_trichotomy a.toNat b.toNat with hlt | heq | hgt
          · exact Or.inl (by simp [charListLe, hlt])
          · have h1 : ¬ a.toNat < b.toNat := by omega
            have h2 : ¬ b.toNat < a.toNat := by omega
            rcases ih bs with h | h
            · exact Or.inl (by simp [charListLe, h1, h2, h])
            · exact Or.inr (by simp [charListLe, h1, h2, h, heq])
          · exact Or.inr (by simp [charListLe, hgt])

theorem charListLe_cons {a b : Char} {as bs : List Char} :
    charListLe (a :: as) (b :: bs) = true ↔
      (a.toNat < b.toNat ∨ (a.toNat = b.toNat ∧ charListLe as bs = true)) := by
  by_cases h1 : a.toNat < b.toNat
  · simp [charListLe, h1]
  · by_cases h2 : b.toNat < a.toNat
    · simp [charListLe, h1, h2]
      omega
    · have heq : a.toNat = b.toNat := by omega
      simp [charListLe, h1, h2, heq]

theorem charListLe_trans :
    ∀ as bs cs, charListLe as bs = true → charListLe bs cs = true →
      charListLe as cs = true := by
  intro as
  induction as with
  | nil => intro bs cs _ _; rfl
  | cons a as ih =>
      intro bs cs hab hbc
      cases bs with
      | nil => simp [charListLe] at hab
      | cons b bs =>
          cases cs with
          | nil => simp [charListLe] at hbc
          | cons c cs =>
              rw [charListLe_cons] at hab hbc ⊢
              rcases hab with h | ⟨heq1, hrec1⟩ <;> rcases hbc with h' | ⟨heq2, hrec2⟩
              · left; omega
              · left; omega
              · left; omega
              · right; exact ⟨by omega, ih bs cs hrec1 hrec2⟩

theorem sortStrings_sorted (l : List String) :
    (sortStrings l).Sorted (fun a b => strLe a b = true) :=
  @List.sorted_insertionSort String (fun a b => strLe a b = true) _
    ⟨fun a b => charListLe_total a.data b.data⟩
    ⟨fun a b c => charListLe_trans a.data b.data c.data⟩ l

theorem sortStrings_perm (l : List String) : (sortStrings l).Perm l :=
  List.perm_insertionSort _ l

theorem lt_ceilDiv_iff {n s k : Nat} (hs : 0 < s) : k < (n + s - 1) / s ↔ k * s < n := by
  rw [Nat.lt_iff_add_one_le, Nat.le_div_iff_mul_le hs, Nat.add_mul, Nat.one_mul]
  constructor <;> intro hval
  · by_cases hn : n = 0
    · subst hn; omega
    · omega
  · omega

theorem mem_rangeStep {n s a : Nat} (hs : 0 < s) :
    a ∈ rangeStep n s ↔ ∃ k, a = k * s ∧ a < n := by
  simp only [rangeStep, List.mem_map, List.mem_range]
  constructor
  · rintro ⟨k, hk, rfl⟩
    exact ⟨k, rfl, (lt_ceilDiv_iff hs).1 hk⟩
  · rintro ⟨k, rfl, hlt⟩
    exact ⟨k, (lt_ceilDiv_iff hs).2 hlt, rfl⟩

theorem mem_prepare_metas {nf : Nat} {videos : List (String × VidData)} {m : Meta} :
    m ∈ prepare_metas nf videos ↔
      ∃ v ∈ videos, ∃ e ∈ v.2.expressions,
        ∃ a ∈ rangeStep (sortStrings v.2.frames).length nf,
          m = { video := v.1, exp := e.2.exp, obj_id := e.2.obj_id, anno_id := e.2.anno_id,
                frames := sortStrings v.2.frames, frame_id := a, category := 0 } := by
  constructor
  · intro hm
    simp only [prepare_metas] at hm
    rw [mem_concatLists] at hm
    obtain ⟨l1, hl1, hm⟩ := hm
    obtain ⟨v, hv, rfl⟩ := List.mem_map.1 hl1
    rw [mem_concatLists] at hm
    obtain ⟨l2, hl2, hm⟩ := hm
    obtain ⟨e, he, rfl⟩ := List.mem_map.1 hl2
    obtain ⟨a, ha, rfl⟩ := List.mem_map.1 hm
    exact ⟨v, hv, e, he, a, ha, rfl⟩
  · rintro ⟨v, hv, e, he, a, ha, rfl⟩
    simp only [prepare_metas]
    rw [mem_concatLists]
    refine ⟨_, List.mem_map.2 ⟨v, hv, rfl⟩, ?_⟩
    rw [mem_concatLists]
    refine ⟨_, List.mem_map.2 ⟨e, he, rfl⟩, ?_⟩
    exact List.mem_map.2 ⟨a, ha, rfl⟩

theorem matAdd_zeros_shape {m : Mat} {h w : Nat} (hs : MatShape m h w) :
    matAdd (zerosMat h w) m = m := by
  have hlem := matAdd_zeros_left m w hs.2
  rw [← hs.1]
  exact hlem

theorem length_filter_ne_map {β : Type} (g : β → Nat) :
    ∀ l : List β, ((l.map g).filter (fun v => v ≠ 0)).length
      = (l.filter (fun x => g x ≠ 0)).length := by
  intro l
  rw [← List.countP_eq_length_filter, ← List.countP_eq_length_filter, List.countP_map]
  rfl

theorem assemble_lengths {α : Type} (D : MeViSModel α) (idx : Nat) :
    (assemble D idx).1.length = D.num_frames ∧
    (assemble D idx).2.labels.length = D.num_frames ∧
    (assemble D idx).2.boxes.length = D.num_frames ∧
    (assemble D idx).2.masks.length = D.num_frames ∧
    (assemble D idx).2.valid.length = D.num_frames := by
  refine ⟨?_, ?_, ?_, ?_, ?_⟩
  · show (assembleImgs D idx).length = D.num_frames
    simp [assembleImgs, assembleFD_length]
  · show ((List.range D.num_frames).map _).length = D.num_frames
    simp
  · show ((assembleMasks D idx).map _).length = D.num_frames
    simp [assembleMasks_length]
  · exact assembleMasks_length D idx
  · show ((assembleMasks D idx).map _).length = D.num_frames
    simp [assembleMasks_length]

/-! Claim theorems. -/

/-- C2: mask decoding folds the task's annotation ids into an accumulator
initialized to all zeros of the frame shape. A null per-frame entry
contributes nothing wherever it sits in the list (the model is total, so
no error is possible); with two annotation ids where the first has a mask
at the frame and the second is null there, the result is exactly the first
decoded mask (likewise for a single present id), and when every entry is
null the result is the all-zero array. -/
theorem mevis_mask_accumulation :
    (∀ (α : Type) (maskDict : String → List (Option α)) (decodeFn : α → Mat)
        (h w : Nat) (ids1 ids2 : List String) (x : String) (f : Nat),
        (maskDict x).getD f none = none →
        accumMask maskDict decodeFn h w (ids1 ++ x :: ids2) f
          = accumMask maskDict decodeFn h w (ids1 ++ ids2) f)
    ∧ (∀ (α : Type) (maskDict : String → List (Option α)) (decodeFn : α → Mat)
        (h w : Nat) (ids : List String) (f : Nat),
        (∀ x ∈ ids, (maskDict x).getD f none = none) →
        accumMask maskDict decodeFn h w ids f = zerosMat h w)
    ∧ (∀ (α : Type) (maskDict : String → List (Option α)) (decodeFn : α → Mat)
        (h w : Nat) (a b : String) (r : α) (f : Nat),
        (maskDict a).getD f none = some r → (maskDict b).getD f none = none →
        MatShape (decodeFn r) h w →
        accumMask maskDict decodeFn h w [a, b] f = decodeFn r)
    ∧ (∀ (α : Type) (maskDict : String → List (Option α)) (decodeFn : α → Mat)
        (h w : Nat) (a : String) (r : α) (f : Nat),
        (maskDict a).getD f none = some r → MatShape (decodeFn r) h w →
        accumMask maskDict decodeFn h w [a] f = decodeFn r) := by
  refine ⟨?_, ?_, ?_, ?_⟩
  · intro α maskDict decodeFn h w ids1 ids2 x f hx
    unfold accumMask
    rw [List.foldl_append, List.foldl_cons, accumStep_none hx, ← List.foldl_append]
  · intro α maskDict decodeFn h w ids f hnull
    exact accumFold_all_null ids (zerosMat h w) hnull
  · intro α maskDict decodeFn h w a b r f ha hb hshape
    unfold accumMask
    rw [List.foldl_cons, List.foldl_cons, List.foldl_nil, accumStep_some ha,
      accumStep_none hb, matAdd_zeros_shape hshape]
  · intro α maskDict decodeFn h w a r f ha hshape
    unfold accumMask
    rw [List.foldl_cons, List.foldl_nil, accumStep_some ha, matAdd_zeros_shape hshape]

/-- C2 witness: a concrete mask store where id `"a"` decodes to `[[1]]`
at frame 0 and id `"b"` is null there; the accumulated mask equals the
first decoded mask. -/
theorem mevis_mask_accumulation_witness :
    accumMask (fun x => if x = "a" then [some 1] else [none]) (fun _ => [[1]])
      1 1 ["a", "b"] 0 = [[1]] :=
  mevis_mask_accumulation.2.2.1 Nat (fun x => if x = "a" then [some 1] else [none])
    (fun _ => [[1]]) 1 1 "a" "b" 1 0 (by decide) (by decide) (by decide)

/-- C6 counterexample: in the dataset `Dov` both annotation ids decode, at
the sampled frame, to the binary mask `[[1]]`, yet the stored
pre-augmentation mask holds the value 2 at pixel (0, 0) — the sum, not a
binary value. -/
theorem mevis_masks_not_binary_cex :
    entry ((assemble Dov 0).2.masks.getD 0 []) 0 0 ≠ 0 ∧
    entry ((assemble Dov 0).2.masks.getD 0 []) 0 0 ≠ 1 ∧
    Dov.decodeFn 1 = [[1]] := by
  decide

/-- C6 amended: every pixel of a pre-augmentation mask equals the SUM over
the task's annotation ids of the decoded contributions at that pixel (zero
for null entries); it is 0 or 1 whenever the per-id contributions are
binary and at most one id contributes a nonzero value at that pixel, but
overlapping annotation ids add up. Each stored mask of the assembled
target is such an accumulated mask. -/
theorem mevis_mask_pixel_sum :
    (∀ (α : Type) (maskDict : String → List (Option α)) (decodeFn : α → Mat)
        (h w i j : Nat) (ids : List String) (f : Nat), i < h → j < w →
        (∀ x ∈ ids, ∀ r, (maskDict x).getD f none = some r → MatShape (decodeFn r) h w) →
        entry (accumMask maskDict decodeFn h w ids f) i j
          = (ids.map (pixelContrib maskDict decodeFn f i j)).sum)
    ∧ (∀ (α : Type) (maskDict : String → List (Option α)) (decodeFn : α → Mat)
        (h w i j : Nat) (ids : List String) (f : Nat), i < h → j < w →
        (∀ x ∈ ids, ∀ r, (maskDict x).getD f none = some r → MatShape (decodeFn r) h w) →
        (∀ x ∈ ids, pixelContrib maskDict decodeFn f i j x ≤ 1) →
        (ids.filter (fun x => pixelContrib maskDict decodeFn f i j x ≠ 0)).length ≤ 1 →
        entry (accumMask maskDict decodeFn h w ids f) i j ≤ 1)
    ∧ (∀ (α : Type) (D : MeViSModel α) (idx j : Nat), j < D.num_frames →
        ∃ (img : Img) (fi : Nat), (assemble D idx).2.masks.getD j []
          = accumMask D.maskDict D.decodeFn img.h img.w (assembleMeta D idx).anno_id fi) := by
  refine ⟨?_, ?_, ?_⟩
  · intro α maskDict decodeFn h w i j ids f hi hj hdec
    exact accumMask_entry_sum hi hj ids hdec
  · intro α maskDict decodeFn h w i j ids f hi hj hdec hle hcount
    rw [accumMask_entry_sum hi hj ids hdec]
    refine sum_le_one_of_single_nonzero _ ?_ ?_
    · intro v hv
      obtain ⟨x, hx, rfl⟩ := List.mem_map.1 hv
      exact hle x hx
    · rw [length_filter_ne_map]
      exact hcount
  · intro α D idx j hj
    refine ⟨D.loadImg (assembleMeta D idx).video
      ((assembleMeta D idx).frames.getD ((assembleSample D idx).getD j 0) ""),
      (assembleSample D idx).getD j 0, ?_⟩
    rw [show (assemble D idx).2.masks = assembleMasks D idx from rfl,
      assembleMasks_getD D idx hj]
    rfl

/-- C6 amended witness: with a single annotation id carrying the binary
mask `[[1]]`, the accumulated pixel equals the contribution sum. -/
theorem mevis_mask_pixel_sum_witness :
    entry (accumMask (fun _ => [some 1]) (fun _ => [[1]]) 1 1 ["a"] 0) 0 0
      = (["a"].map (pixelContrib (fun _ => [some (1 : Nat)]) (fun _ => [[1]]) 0 0 0)).sum :=
  mevis_mask_pixel_sum.1 Nat (fun _ => [some 1]) (fun _ => [[1]]) 1 1 0 0 ["a"] 0
    (by decide) (by decide) (by decide)

/-- C5 counterexample: on a manifest whose single expression has one
object id but two annotation ids, `prepare_metas` raises nothing — it
returns a catalog whose single entry has `obj_id` of length 1 and
`anno_id` of length 2, refuting both the claimed failure and the claimed
equal-length invariant. -/
theorem mevis_prepare_metas_mismatch_cex :
    (prepare_metas 5 [("v", mism)]).length = 1 ∧
    ((prepare_metas 5 [("v", mism)]).getD 0 default).obj_id.length = 1 ∧
    ((prepare_metas 5 [("v", mism)]).getD 0 default).anno_id.length = 2 := by
  decide

/-- C5 amended: metadata preparation performs no validation of the id
lists — it never fails, and every catalog entry's `obj_id` and `anno_id`
are exactly the manifest expression's lists, so their lengths are equal
exactly when the manifest's are. -/
theorem mevis_prepare_metas_ids_from_manifest (nf : Nat)
    (videos : List (String × VidData)) (m : Meta) (hm : m ∈ prepare_metas nf videos) :
    ∃ v ∈ videos, ∃ e ∈ v.2.expressions,
      m.obj_id = e.2.obj_id ∧ m.anno_id = e.2.anno_id := by
  obtain ⟨v, hv, e, he, a, ha, rfl⟩ := mem_prepare_metas.1 hm
  exact ⟨v, hv, e, he, rfl, rfl⟩

/-- C5 amended witness: the mismatched-manifest catalog entry carries the
manifest's lists unchanged. -/
theorem mevis_prepare_metas_ids_witness :
    ∃ v ∈ [("v", mism)], ∃ e ∈ v.2.expressions,
      ((prepare_metas 5 [("v", mism)]).getD 0 default).obj_id = e.2.obj_id ∧
      ((prepare_metas 5 [("v", mism)]).getD 0 default).anno_id = e.2.anno_id :=
  mevis_prepare_metas_ids_from_manifest 5 [("v", mism)]
    ((prepare_metas 5 [("v", mism)]).getD 0 default) (by decide)

/-- C7: every box coordinate of the assembled (pre-augmentation) target is
clamped into the rectangle of the image whose size the code reads after
the loop: x-coordinates (components 0 and 2) are at most its width and
y-coordinates (components 1 and 3) at most its height; the lower bound 0
holds because coordinates are naturals. -/
theorem mevis_box_clamped (α : Type) (D : MeViSModel α) (idx j : Nat) :
    ((assemble D idx).2.boxes.getD j (0, 0, 0, 0)).1 ≤ (assembleLast D idx).w ∧
    ((assemble D idx).2.boxes.getD j (0, 0, 0, 0)).2.1 ≤ (assembleLast D idx).h ∧
    ((assemble D idx).2.boxes.getD j (0, 0, 0, 0)).2.2.1 ≤ (assembleLast D idx).w ∧
    ((assemble D idx).2.boxes.getD j (0, 0, 0, 0)).2.2.2 ≤ (assembleLast D idx).h := by
  by_cases hj : j < D.num_frames
  · rw [assemble_boxes_getD D idx hj]
    exact ⟨Nat.min_le_right _ _, Nat.min_le_right _ _, Nat.min_le_right _ _,
      Nat.min_le_right _ _⟩
  · have hlen : (assemble D idx).2.boxes.length ≤ j := by
      rw [(assemble_lengths D idx).2.2.1]
      omega
    rw [List.getD_eq_default _ _ hlen]
    simp

/-- C1: every sample the retry loop returns has at least one position with
`valid == 1`; a satisfied attempt is returned as is, an unsatisfied one is
discarded and the build restarts from the next pseudo-randomly drawn index
(`random.randint(0, len - 1)`, modelled as the injected draw stream); and
when no attempt ever satisfies the check the loop never produces a result,
however long the stream — the loop carries no iteration bound. -/
theorem mevis_getitem_retry_invariant (α : Type) (D : MeViSModel α) :
    (∀ (draws : List Nat) (idx : Nat) (r : List Img × Target),
        getitemLoop D draws idx = some r →
        ∃ t, t < r.2.valid.length ∧ r.2.valid.getD t 0 = 1)
    ∧ (∀ (draws : List Nat) (idx : Nat), validAny (attemptOut D idx).2 = true →
        getitemLoop D draws idx = some (attemptOut D idx))
    ∧ (∀ (d : Nat) (rest : List Nat) (idx : Nat), validAny (attemptOut D idx).2 = false →
        getitemLoop D (d :: rest) idx = getitemLoop D rest d)
    ∧ ((∀ i, validAny (attemptOut D i).2 = false) →
        ∀ (draws : List Nat) (idx : Nat), getitemLoop D draws idx = none) := by
  refine ⟨?_, ?_, ?_, ?_⟩
  · intro draws idx r hr
    obtain ⟨i, _, hreq, hival, _⟩ := getitemLoop_some_attempt D draws idx r hr
    rw [hreq]
    exact validAny_exists hival
  · intro draws idx hv
    cases draws with
    | nil => simp only [getitemLoop, if_pos hv]
    | cons d rest => simp only [getitemLoop, if_pos hv]
  · intro d rest idx hv
    simp only [getitemLoop, hv]
    simp
  · intro hall draws
    induction draws with
    | nil =>
        intro idx
        simp only [getitemLoop, hall idx]
        simp
    | cons d rest ih =>
        intro idx
        simp only [getitemLoop, hall idx]
        simpa using ih d

/-- C1 witness: in the dataset `Dex` the attempt at index 0 has no valid
frame, so the loop discards it and restarts from the drawn index 1. -/
theorem mevis_getitem_retry_witness :
    getitemLoop Dex [1] 0 = getitemLoop Dex [] 1 :=
  (mevis_getitem_retry_invariant Nat Dex).2.2.1 1 [] 0 (by decide)

/-- C8: the per-frame sequences of one assembled pass — images, labels,
boxes, masks, valid — each hold exactly `num_frames` entries, one appended
per loop iteration; consequently any sample the loop returns keeps those
lengths whenever the (external, opaque) transform preserves them. -/
theorem mevis_sample_lengths (α : Type) (D : MeViSModel α) :
    (∀ idx : Nat,
        (assemble D idx).1.length = D.num_frames ∧
        (assemble D idx).2.labels.length = D.num_frames ∧
        (assemble D idx).2.boxes.length = D.num_frames ∧
        (assemble D idx).2.masks.length = D.num_frames ∧
        (assemble D idx).2.valid.length = D.num_frames)
    ∧ ((∀ (imgs : List Img) (t : Target),
          (D.transform imgs t).1.length = imgs.length ∧
          (D.transform imgs t).2.labels.length = t.labels.length ∧
          (D.transform imgs t).2.boxes.length = t.boxes.length ∧
          (D.transform imgs t).2.masks.length = t.masks.length ∧
          (D.transform imgs t).2.valid.length = t.valid.length) →
        ∀ (draws : List Nat) (idx : Nat) (r : List Img × Target),
          getitemLoop D draws idx = some r →
          r.1.length = D.num_frames ∧ r.2.labels.length = D.num_frames ∧
          r.2.boxes.length = D.num_frames ∧ r.2.masks.length = D.num_frames ∧
          r.2.valid.length = D.num_frames) := by
  refine ⟨fun idx => assemble_lengths D idx, ?_⟩
  intro hpres draws idx r hr
  obtain ⟨i, _, hreq, _, _⟩ := getitemLoop_some_attempt D draws idx r hr
  subst hreq
  obtain ⟨hp1, hp2, hp3, hp4, hp5⟩ := hpres (assemble D i).1 (assemble D i).2
  obtain ⟨ha1, ha2, ha3, ha4, ha5⟩ := assemble_lengths D i
  exact ⟨by rw [show (attemptOut D i).1 = (D.transform (assemble D i).1 (assemble D i).2).1
      from rfl, hp1, ha1],
    by rw [show (attemptOut D i).2 = (D.transform (assemble D i).1 (assemble D i).2).2
      from rfl, hp2, ha2],
    by rw [show (attemptOut D i).2 = (D.transform (assemble D i).1 (assemble D i).2).2
      from rfl, hp3, ha3],
    by rw [show (attemptOut D i).2 = (D.transform (assemble D i).1 (assemble D i).2).2
      from rfl, hp4, ha4],
    by rw [show (attemptOut D i).2 = (D.transform (assemble D i).1 (assemble D i).2).2
      from rfl, hp5, ha5]⟩

/-- C8 witness: the identity transform of `Dex` preserves lengths, and the
sample returned for index 1 has one entry per sequence. -/
theorem mevis_sample_lengths_witness :
    (attemptOut Dex 1).1.length = Dex.num_frames ∧
    (attemptOut Dex 1).2.labels.length = Dex.num_frames ∧
    (attemptOut Dex 1).2.boxes.length = Dex.num_frames ∧
    (attemptOut Dex 1).2.masks.length = Dex.num_frames ∧
    (attemptOut Dex 1).2.valid.length = Dex.num_frames :=
  (mevis_sample_lengths Nat Dex).2 (fun imgs t => ⟨rfl, rfl, rfl, rfl, rfl⟩)
    [] 1 (attemptOut Dex 1) (by decide)

/-- C10: whatever sample the retry loop returns is the attempt built at
some index `i` — the requested index if its own attempt was valid, else
one of the drawn indices — and, provided the (external) transform leaves
the bookkeeping fields alone, the returned `exp_id` equals that last built
index `i` (which can differ from the requested one), while `caption` and
`video_id` (and, via `r = attemptOut D i`, boxes, masks and valid)
describe task `i`, not the requested task. -/
theorem mevis_exp_id_last_built (α : Type) (D : MeViSModel α)
    (hpres : ∀ (imgs : List Img) (t : Target),
      (D.transform imgs t).2.exp_id = t.exp_id ∧
      (D.transform imgs t).2.caption = t.caption ∧
      (D.transform imgs t).2.video_id = t.video_id) :
    ∀ (draws : List Nat) (idx : Nat) (r : List Img × Target),
      getitemLoop D draws idx = some r →
      ∃ i, (i = idx ∨ i ∈ draws) ∧ r = attemptOut D i ∧
        validAny (attemptOut D i).2 = true ∧
        r.2.exp_id = i ∧
        r.2.video_id = (D.metas.getD i default).video ∧
        r.2.caption = normalizeCaption (D.metas.getD i default).exp ∧
        (validAny (attemptOut D idx).2 = true → i = idx) := by
  intro draws idx r hr
  obtain ⟨i, hior, hreq, hival, hfst⟩ := getitemLoop_some_attempt D draws idx r hr
  subst hreq
  refine ⟨i, hior, rfl, hival, ?_, ?_, ?_, hfst⟩
  · rw [show (attemptOut D i).2 = (D.transform (assemble D i).1 (assemble D i).2).2 from rfl,
      (hpres _ _).1, assemble_exp_id]
  · rw [show (attemptOut D i).2 = (D.transform (assemble D i).1 (assemble D i).2).2 from rfl,
      (hpres _ _).2.2, assemble_video_id]
  · rw [show (attemptOut D i).2 = (D.transform (assemble D i).1 (assemble D i).2).2 from rfl,
      (hpres _ _).2.1, assemble_caption]

/-- C10 witness: requesting index 0 of `Dex` with draw stream `[1]`
returns the attempt built at index 1, whose `exp_id` is 1, not 0. -/
theorem mevis_exp_id_last_built_witness :
    ∃ i, (i = 0 ∨ i ∈ [1]) ∧ attemptOut Dex 1 = attemptOut Dex i ∧
      validAny (attemptOut Dex i).2 = true ∧
      (attemptOut Dex 1).2.exp_id = i ∧
      (attemptOut Dex 1).2.video_id = (Dex.metas.getD i default).video ∧
      (attemptOut Dex 1).2.caption = normalizeCaption (Dex.metas.getD i default).exp ∧
      (validAny (attemptOut Dex 0).2 = true → i = 0) :=
  mevis_exp_id_last_built Nat Dex (fun imgs t => ⟨rfl, rfl, rfl⟩) [1] 0
    (attemptOut Dex 1) (by decide)

/-- C9: `build_dataset` dispatches purely on the dataset string — each of
the six supported strings invokes its builder and returns the result, and
any other string yields the `ValueError` (`Except.error`) with the message
the source formats. -/
theorem build_dataset_dispatch (γ δ : Type) (bmevis bytvos bdavis : String → γ → δ)
    (brefexp : String → String → γ → δ) (image_set : String) (args : γ) :
    build_dataset bmevis bytvos bdavis brefexp "mevis" image_set args
      = Except.ok (bmevis image_set args)
    ∧ build_dataset bmevis bytvos bdavis brefexp "ytvos" image_set args
      = Except.ok (bytvos image_set args)
    ∧ build_dataset bmevis bytvos bdavis brefexp "davis" image_set args
      = Except.ok (bdavis image_set args)
    ∧ build_dataset bmevis bytvos bdavis brefexp "refcoco" image_set args
      = Except.ok (brefexp "refcoco" image_set args)
    ∧ build_dataset bmevis bytvos bdavis brefexp "refcoco+" image_set args
      = Except.ok (brefexp "refcoco+" image_set args)
    ∧ build_dataset bmevis bytvos bdavis brefexp "refcocog" image_set args
      = Except.ok (brefexp "refcocog" image_set args)
    ∧ (∀ df : String, df ≠ "mevis" → df ≠ "ytvos" → df ≠ "davis" → df ≠ "refcoco" →
        df ≠ "refcoco+" → df ≠ "refcocog" →
        build_dataset bmevis bytvos bdavis brefexp df image_set args
          = Except.error ("dataset " ++ df ++ " not supported")) := by
  refine ⟨?_, ?_, ?_, ?_, ?_, ?_, ?_⟩
  · rw [build_dataset, if_pos rfl]
  · rw [build_dataset, if_neg (by decide), if_pos rfl]
  · rw [build_dataset, if_neg (by decide), if_neg (by decide), if_pos rfl]
  · rw [build_dataset, if_neg (by decide), if_neg (by decide), if_neg (by decide),
      if_pos (by decide)]
  · rw [build_dataset, if_neg (by decide), if_neg (by decide), if_neg (by decide),
      if_pos (by decide)]
  · rw [build_dataset, if_neg (by decide), if_neg (by decide), if_neg (by decide),
      if_pos (by decide)]
  · intro df h1 h2 h3 h4 h5 h6
    rw [build_dataset, if_neg h1, if_neg h2, if_neg h3,
      if_neg (by simp [h4, h5, h6])]

/-- C9 witness: the unsupported string `"foo"` produces the error value. -/
theorem build_dataset_dispatch_witness :
    build_dataset (fun _ _ => (0 : Nat)) (fun _ _ => 1) (fun _ _ => 2) (fun _ _ _ => 3)
      "foo" "train" () = Except.error ("dataset " ++ "foo" ++ " not supported") :=
  (build_dataset_dispatch Unit Nat (fun _ _ => 0) (fun _ _ => 1) (fun _ _ => 2)
    (fun _ _ _ => 3) "train" ()).2.2.2.2.2.2 "foo" (by decide) (by decide) (by decide)
    (by decide) (by decide) (by decide)

/-- C3: for a mask with a positive pixel, `bounding_box` returns exactly
the minimal and maximal nonzero row and column, the emitted box is that
tight box as `(x1, y1, x2, y2)` with `valid = 1`, and — the coordinates
lying inside the frame — the subsequent clamp leaves it unchanged; for a
mask with no positive pixel the box is the degenerate `(0, 0, 0, 0)` with
`valid = 0`. In the assembled target this holds position by position, so
masks present everywhere give `valid` all ones and masks absent everywhere
give `valid` all zeros with every box `(0, 0, 0, 0)`. -/
theorem mevis_box_valid_correct :
    (∀ (m : Mat) (h w : Nat), MatShape m h w → matAnyPos m = true →
        (boxValid m).2 = 1 ∧
        ∃ y1 y2 x1 x2, bounding_box m = (y1, y2, x1, x2) ∧
          (boxValid m).1 = (x1, y1, x2, y2) ∧
          RowNZ m y1 ∧ RowNZ m y2 ∧ ColNZ m x1 ∧ ColNZ m x2 ∧
          (∀ i, RowNZ m i → y1 ≤ i ∧ i ≤ y2) ∧
          (∀ j, ColNZ m j → x1 ≤ j ∧ j ≤ x2) ∧
          y1 < h ∧ y2 < h ∧ x1 < w ∧ x2 < w ∧
          clampBox w h (x1, y1, x2, y2) = (x1, y1, x2, y2))
    ∧ (∀ m : Mat, matAnyPos m = false → boxValid m = ((0, 0, 0, 0), 0))
    ∧ (∀ (α : Type) (D : MeViSModel α) (idx j : Nat), j < D.num_frames →
        (matAnyPos ((assemble D idx).2.masks.getD j []) = true →
          (assemble D idx).2.valid.getD j 0 = 1 ∧
          (assemble D idx).2.boxes.getD j (0, 0, 0, 0)
            = clampBox (assembleLast D idx).w (assembleLast D idx).h
                (boxValid ((assemble D idx).2.masks.getD j [])).1) ∧
        (matAnyPos ((assemble D idx).2.masks.getD j []) = false →
          (assemble D idx).2.valid.getD j 0 = 0 ∧
          (assemble D idx).2.boxes.getD j (0, 0, 0, 0) = (0, 0, 0, 0)))
    ∧ (∀ (α : Type) (D : MeViSModel α) (idx : Nat),
        (∀ j, j < D.num_frames → matAnyPos ((assemble D idx).2.masks.getD j []) = true) →
        (assemble D idx).2.valid = List.replicate D.num_frames 1)
    ∧ (∀ (α : Type) (D : MeViSModel α) (idx : Nat),
        (∀ j, j < D.num_frames → matAnyPos ((assemble D idx).2.masks.getD j []) = false) →
        (assemble D idx).2.valid = List.replicate D.num_frames 0 ∧
        (assemble D idx).2.boxes = List.replicate D.num_frames (0, 0, 0, 0)) := by
  refine ⟨?_, ?_, ?_, ?_, ?_⟩
  · intro m h w hs hp
    obtain ⟨y1, y2, x1, x2, hbb, hr1, hr2, hc1, hc2, hrmm, hcmm, hy1, hy2, hx1, hx2⟩ :=
      bounding_box_spec hs hp
    refine ⟨boxValid_snd_pos hp, y1, y2, x1, x2, hbb,
      by rw [boxValid_fst_pos hp, hbb],
      hr1, hr2, hc1, hc2, hrmm, hcmm, hy1, hy2, hx1, hx2, ?_⟩
    have e1 : min x1 w = x1 := Nat.min_eq_left (Nat.le_of_lt hx1)
    have e2 : min y1 h = y1 := Nat.min_eq_left (Nat.le_of_lt hy1)
    have e3 : min x2 w = x2 := Nat.min_eq_left (Nat.le_of_lt hx2)
    have e4 : min y2 h = y2 := Nat.min_eq_left (Nat.le_of_lt hy2)
    simp [clampBox, e1, e2, e3, e4]
  · intro m hm
    exact boxValid_neg hm
  · intro α D idx j hj
    constructor
    · intro hpos
      refine ⟨?_, assemble_boxes_getD D idx hj⟩
      rw [assemble_valid_getD D idx hj, boxValid_snd_pos hpos]
    · intro hneg
      refine ⟨?_, ?_⟩
      · rw [assemble_valid_getD D idx hj, boxValid_neg hneg]
      · rw [assemble_boxes_getD D idx hj, boxValid_neg hneg]
        simp [clampBox]
  · intro α D idx hall
    have hvl : (assemble D idx).2.valid.length = D.num_frames :=
      (assemble_lengths D idx).2.2.2.2
    refine List.ext_getElem (by rw [hvl, List.length_replicate]) ?_
    intro n h1 h2
    have hn : n < D.num_frames := by rwa [hvl] at h1
    have hvg := assemble_valid_getD D idx hn
    rw [List.getD_eq_getElem _ _ h1] at hvg
    rw [hvg, List.getElem_replicate, boxValid_snd_pos (hall n hn)]
  · intro α D idx hall
    have hvl : (assemble D idx).2.valid.length = D.num_frames :=
      (assemble_lengths D idx).2.2.2.2
    have hbl : (assemble D idx).2.boxes.length = D.num_frames :=
      (assemble_lengths D idx).2.2.1
    constructor
    · refine List.ext_getElem (by rw [hvl, List.length_replicate]) ?_
      intro n h1 h2
      have hn : n < D.num_frames := by rwa [hvl] at h1
      have hvg := assemble_valid_getD D idx hn
      rw [List.getD_eq_getElem _ _ h1] at hvg
      rw [hvg, List.getElem_replicate, boxValid_neg (hall n hn)]
    · refine List.ext_getElem (by rw [hbl, List.length_replicate]) ?_
      intro n h1 h2
      have hn : n < D.num_frames := by rwa [hbl] at h1
      have hbg := assemble_boxes_getD D idx hn
      rw [List.getD_eq_getElem _ _ h1] at hbg
      rw [hbg, List.getElem_replicate, boxValid_neg (hall n hn)]
      simp [clampBox]

/-- C3 witness: the mask `[[0, 1], [0, 0]]` has its only nonzero pixel at
row 0, column 1, and is flagged valid. -/
theorem mevis_box_valid_witness :
    (boxValid [[0, 1], [0, 0]]).2 = 1 :=
  (mevis_box_valid_correct.1 [[0, 1], [0, 0]] 2 2 (by decide) (by decide)).1

/-- C4: membership in the catalog built by `prepare_metas` is exactly one
entry per (video, expression, anchor) with the anchor drawn from
`range(0, vid_len, num_frames)` and the entry carrying the video id,
expression text, id lists, the lexicographically sorted frame list and
the anchor; the anchors are precisely the multiples of the clip length
strictly below the frame count; the frame list is a sorted permutation of
the manifest's; and the spec's worked example — one video of 10 frames,
one expression, clip length 5 — yields exactly the two entries anchored at
0 and 5. -/
theorem mevis_prepare_metas_catalog :
    (∀ (nf : Nat) (videos : List (String × VidData)) (m : Meta),
        m ∈ prepare_metas nf videos ↔ ∃ v ∈ videos, ∃ e ∈ v.2.expressions,
          ∃ a ∈ rangeStep (sortStrings v.2.frames).length nf,
            m = { video := v.1, exp := e.2.exp, obj_id := e.2.obj_id,
                  anno_id := e.2.anno_id, frames := sortStrings v.2.frames,
                  frame_id := a, category := 0 })
    ∧ (∀ n s a : Nat, 0 < s → (a ∈ rangeStep n s ↔ ∃ k, a = k * s ∧ a < n))
    ∧ (∀ l : List String, (sortStrings l).Sorted (fun a b => strLe a b = true)
        ∧ (sortStrings l).Perm l)
    ∧ prepare_metas 5 [("v", vd10)] =
        [{ video := "v", exp := "a person", obj_id := [1], anno_id := ["1"],
           frames := ["f0", "f1", "f2", "f3", "f4", "f5", "f6", "f7", "f8", "f9"],
           frame_id := 0, category := 0 },
         { video := "v", exp := "a person", obj_id := [1], anno_id := ["1"],
           frames := ["f0", "f1", "f2", "f3", "f4", "f5", "f6", "f7", "f8", "f9"],
           frame_id := 5, category := 0 }] := by
  refine ⟨fun nf videos m => mem_prepare_metas, fun n s a hs => mem_rangeStep hs,
    fun l => ⟨sortStrings_sorted l, sortStrings_perm l⟩, by decide⟩

/-- C4 witness: anchor 5 lies in `range(0, 10, 5)` and is the multiple
1 * 5 below 10. -/
theorem mevis_prepare_metas_catalog_witness :
    5 ∈ rangeStep 10 5 ↔ ∃ k, 5 = k * 5 ∧ 5 < 10 :=
  mevis_prepare_metas_catalog.2.1 10 5 5 (by decide)

end SAMWISE
